import Mathlib

/-!
Shallow embedding of the change-detection and cleanup core of the
copilot-octoverse monitoring scripts:

* `monitor_repo_directory.py` — metadata snapshot of a repository
  directory and `compare_file_metadata` (new / updated / unchanged
  classification with aggregate statistics);
* `monitor_rss_feed.py` — feed-entry snapshot, `compare_feed_entries`
  (new-entry detection) and `analyze_entries_for_cleanup`;
* `cleanup_content.py` — age-based cleanup candidate selection and the
  (dry-run aware) sweep over stored state.

Python dicts are embedded as association lists with unique keys where a
claim needs that invariant; timestamps are integers (seconds), with the
external datetime parsing/formatting routines passed in as explicit
function parameters.  Python's `round` (banker's rounding on the exact
quotient) is `pyRoundDiv`.
-/

namespace Octoverse

/-- Metadata record for one tracked repository file, as stored in
`files_data.json`.  Fields that the scripts read with `dict.get` (and
which may therefore be absent) are `Option`s; `size` is read with
`get("size", 0)`, so absence is identified with `0`. -/
structure FileInfo where
  sha : Option String := none
  size : Nat := 0
  path : Option String := none
  content_hash : Option String := none
  download_url : Option String := none
  last_processed : Option String := none
  added_date : Option String := none
deriving Repr, DecidableEq

/-- A repository snapshot: the JSON object mapping relative file path to
`FileInfo` (a Python dict, embedded as an association list). -/
abbrev RepoSnapshot := List (String × FileInfo)

/-- Dict key lookup (`d[k]` / `k in d`): first binding of the key wins;
on a genuine dict the keys are unique so there is only one. -/
def lookupKey : RepoSnapshot → String → Option FileInfo
  | [], _ => none
  | (p, v) :: rest, k => if p = k then some v else lookupKey rest k

/-- The keys of a snapshot, in insertion order. -/
def keysOf (m : RepoSnapshot) : List String := m.map Prod.fst

/-- The metadata record built by `download_file_metadata` on its success
path (`monitor_repo_directory.py`, lines 54-61): only `sha`, `size`,
`path`, `content_hash`, `download_url` and `last_processed` are stored —
in particular no `added_date` field. -/
def download_file_metadata (sha : String) (size : Nat) (path : String)
    (content_hash : String) (download_url : String)
    (last_processed : String) : FileInfo :=
  { sha := some sha
    size := size
    path := some path
    content_hash := some content_hash
    download_url := some download_url
    last_processed := some last_processed
    added_date := none }

/-- Accumulator of the classification loop in `compare_file_metadata`:
three file-name lists plus the running `total_size`. -/
structure ClassifyAcc where
  new_files : List String
  updated_files : List String
  unchanged_files : List String
  total_size : Nat
deriving Repr, DecidableEq

/-- The loop of `compare_file_metadata` (lines 180-197): for each
`(file_path, metadata)` of the current snapshot, accumulate its size and
classify it as new (key absent from `old_metadata`), updated (present,
`content_hash` differs) or unchanged (present, `content_hash` equal).
Recursion from the right with prepending reproduces the append order of
the Python loop. -/
def classifyFiles (old_metadata : RepoSnapshot) : RepoSnapshot → ClassifyAcc
  | [] => ⟨[], [], [], 0⟩
  | (file_path, metadata) :: rest =>
    let acc := classifyFiles old_metadata rest
    match lookupKey old_metadata file_path with
    | none =>
        { acc with new_files := file_path :: acc.new_files
                   total_size := metadata.size + acc.total_size }
    | some old_meta =>
        if old_meta.content_hash ≠ metadata.content_hash then
          { acc with updated_files := file_path :: acc.updated_files
                     total_size := metadata.size + acc.total_size }
        else
          { acc with unchanged_files := file_path :: acc.unchanged_files
                     total_size := metadata.size + acc.total_size }

/-- Python's `round(a / b)` for nonnegative integers `a`, `b > 0`:
round-half-to-even on the exact quotient. -/
def pyRoundDiv (a b : Nat) : Nat :=
  let q := a / b
  let r := a % b
  if 2 * r < b then q
  else if 2 * r > b then q + 1
  else if q % 2 = 0 then q else q + 1

/-- The `file_count_analysis` object of the change set. -/
structure FileCountAnalysis where
  total_files : Nat
  average_size : Nat
deriving Repr, DecidableEq

/-- The `summary` object of the change set. -/
structure RepoSummary where
  new_count : Nat
  updated_count : Nat
  unchanged_count : Nat
deriving Repr, DecidableEq

/-- The dictionary returned by `compare_file_metadata`
(lines 200-214). -/
structure RepoChangeSet where
  monitored_files : RepoSnapshot
  file_count_analysis : FileCountAnalysis
  summary : RepoSummary
  new_files : List String
  updated_files : List String
  unchanged_files : List String
deriving DecidableEq

/-- `compare_file_metadata(old_metadata, new_metadata)`
(`monitor_repo_directory.py`, lines 159-214). -/
def compare_file_metadata (old_metadata new_metadata : RepoSnapshot) :
    RepoChangeSet :=
  let acc := classifyFiles old_metadata new_metadata
  { monitored_files := new_metadata
    file_count_analysis :=
      { total_files := new_metadata.length
        average_size :=
          if new_metadata.isEmpty then 0
          else pyRoundDiv acc.total_size new_metadata.length }
    summary :=
      { new_count := acc.new_files.length
        updated_count := acc.updated_files.length
        unchanged_count := acc.unchanged_files.length }
    new_files := acc.new_files
    updated_files := acc.updated_files
    unchanged_files := acc.unchanged_files }

/-- Loading of the previous repository snapshot in `main`
(lines 356-365): `previous_files = {}`; if the file exists, try to parse
it, and on failure keep `{}`.  `file` is the raw text of
`files_data.json` (`none` when the file does not exist) and `parse` the
external JSON decoder. -/
def load_previous_files (file : Option String)
    (parse : String → Option RepoSnapshot) : RepoSnapshot :=
  match file with
  | none => []
  | some s =>
    match parse s with
    | some d => d
    | none => []

/-- One feed entry, as produced by `extract_feed_entries` and as stored
in `feed_entries.json`.  `id` is an `Option` because
`compare_feed_entries` explicitly tests `"id" in entry` on stored
entries and reads it with `entry.get("id", "")` on current ones;
`detected_date` is stamped onto an entry only when it is first
detected. -/
structure FeedEntry where
  id : Option String := none
  title : String := ""
  link : String := ""
  published : String := ""
  content : String := ""
  content_hash : String := ""
  feed_index : Nat := 0
  detected_date : Option String := none
deriving Repr, DecidableEq

/-- The keys of `old_entries_dict = {entry["id"]: entry for entry in
old_entries if "id" in entry}` (`monitor_rss_feed.py`, line 152): the
ids of the stored entries that have an `id` field.  Only key membership
is consulted afterwards, so the dict itself need not be kept. -/
def oldEntryIds (old_entries : List FeedEntry) : List String :=
  old_entries.filterMap (·.id)

/-- The new-entry loop of `compare_feed_entries` (lines 154-164):
entries whose `entry.get("id", "")` is empty are skipped; entries whose
id is not a key of the previous entries get `detected_date` stamped with
the current time and are appended to `new_entries`. -/
def newFeedEntries (ids : List String) (now_iso : String) :
    List FeedEntry → List FeedEntry
  | [] => []
  | e :: rest =>
    let entry_id := e.id.getD ""
    if entry_id = "" then newFeedEntries ids now_iso rest
    else if entry_id ∈ ids then newFeedEntries ids now_iso rest
    else { e with detected_date := some now_iso } :: newFeedEntries ids now_iso rest

/-- `entry_age_distribution` counters of the cleanup analysis. -/
structure AgeDistribution where
  last_week : Nat := 0
  last_month : Nat := 0
  last_quarter : Nat := 0
  older : Nat := 0
deriving Repr, DecidableEq

/-- One element of `entry_info` / `oldest_entries` in
`analyze_entries_for_cleanup`. -/
structure OldEntryInfo where
  id : String
  title : String
  days_old : Int
deriving Repr, DecidableEq

/-- The `cleanup_analysis` object returned by
`analyze_entries_for_cleanup`. -/
structure CleanupInfo where
  total_entries : Nat
  total_stored : Nat
  entry_growth : Int
  oldest_entries : List OldEntryInfo
  entry_age_distribution : AgeDistribution
deriving Repr, DecidableEq

/-- `days_old` of one entry in `analyze_entries_for_cleanup`
(lines 189-204): `0` unless `published` is nonempty and one of the three
`strptime` formats parses it, in which case `(now - entry_date).days`
(floor division of the time difference by one day).  `parsePub`
abstracts the external `datetime.strptime` attempts; timestamps are
seconds. -/
def entryDaysOld (parsePub : String → Option Int) (now : Int)
    (e : FeedEntry) : Int :=
  if e.published ≠ "" then
    match parsePub e.published with
    | some entry_date => (now - entry_date).fdiv 86400
    | none => 0
  else 0

/-- Age bucketing of one entry (lines 213-220). -/
def ageBucket (dist : AgeDistribution) (days_old : Int) : AgeDistribution :=
  if days_old ≤ 7 then { dist with last_week := dist.last_week + 1 }
  else if days_old ≤ 30 then { dist with last_month := dist.last_month + 1 }
  else if days_old ≤ 90 then { dist with last_quarter := dist.last_quarter + 1 }
  else { dist with older := dist.older + 1 }

/-- `analyze_entries_for_cleanup(old_entries, new_entries)`
(`monitor_rss_feed.py`, lines 169-226): aggregate counts, the age
distribution of the current entries, and the ten oldest current entries
(stable sort by `days_old`, descending, like Python's
`sort(reverse=True)`). -/
def analyze_entries_for_cleanup (parsePub : String → Option Int)
    (now : Int) (old_entries new_entries : List FeedEntry) : CleanupInfo :=
  let entry_info : List OldEntryInfo := new_entries.map fun e =>
    { id := e.id.getD "", title := e.title.take 50
      days_old := entryDaysOld parsePub now e }
  { total_entries := new_entries.length
    total_stored := old_entries.length
    entry_growth := (new_entries.length : Int) - (old_entries.length : Int)
    oldest_entries :=
      (entry_info.mergeSort fun a b => b.days_old ≤ a.days_old).take 10
    entry_age_distribution :=
      new_entries.foldl (fun d e => ageBucket d (entryDaysOld parsePub now e)) {} }

/-- The dictionary returned by `compare_feed_entries`. -/
structure FeedChanges where
  new_entries : List FeedEntry
  total_new : Nat
  cleanup_analysis : CleanupInfo
deriving Repr, DecidableEq

/-- `compare_feed_entries(old_entries, new_entries)`
(`monitor_rss_feed.py`, lines 141-166).  `now` is the clock reading of
the run as a timestamp and `now_iso` its `isoformat()` string (the code
reads `datetime.now()` during the run); `parsePub` abstracts
`datetime.strptime`. -/
def compare_feed_entries (parsePub : String → Option Int) (now : Int)
    (now_iso : String) (old_entries new_entries : List FeedEntry) :
    FeedChanges :=
  let news := newFeedEntries (oldEntryIds old_entries) now_iso new_entries
  { new_entries := news
    total_new := news.length
    cleanup_analysis := analyze_entries_for_cleanup parsePub now old_entries new_entries }

/-- Loading of the previous feed entries in `main`
(`monitor_rss_feed.py`, lines 296-305): `previous_entries = []`; if the
per-feed file exists, try to parse it, keeping `[]` on failure. -/
def load_previous_entries (file : Option String)
    (parse : String → Option (List FeedEntry)) : List FeedEntry :=
  match file with
  | none => []
  | some s =>
    match parse s with
    | some entries => entries
    | none => []

/-- One repository-file cleanup candidate
(`cleanup_content.py`, lines 46-59).  When date parsing fails the code
records the strings `"unknown"` for `added_date` and `days_old`; the
latter is embedded as `none`. -/
structure RepoCleanupCandidate where
  path : String
  size : Nat
  added_date : String
  days_old : Option Int
deriving Repr, DecidableEq

/-- `analyze_repo_files_for_cleanup` loop
(`cleanup_content.py`, lines 33-61), on the already-parsed
`files_data`.  `cutoff_date = now - timedelta(days=age_threshold_days)`;
a file with a truthy (nonempty) `added_date` is a candidate when the
parsed date is strictly before the cutoff, or — unparseable date — is a
candidate unconditionally; a file without `added_date` is skipped.
Returns `(cleanup_candidates, total_files, total_size)`.  `parseIso`
abstracts `datetime.fromisoformat` (after the `'Z'` replacement),
yielding a comparable timestamp in seconds. -/
def analyze_repo_files_for_cleanup (parseIso : String → Option Int)
    (now : Int) (age_threshold_days : Int) :
    RepoSnapshot → List RepoCleanupCandidate × Nat × Nat
  | [] => ([], 0, 0)
  | (file_path, file_info) :: rest =>
    let (cands, total_files, total_size) :=
      analyze_repo_files_for_cleanup parseIso now age_threshold_days rest
    let file_size := file_info.size
    match file_info.added_date with
    | none => (cands, total_files + 1, total_size + file_size)
    | some added_date_str =>
      if added_date_str = "" then (cands, total_files + 1, total_size + file_size)
      else
        match parseIso added_date_str with
        | some added_date =>
          if added_date < now - age_threshold_days * 86400 then
            ({ path := file_path, size := file_size
               added_date := added_date_str
               days_old := some ((now - added_date).fdiv 86400) } :: cands,
             total_files + 1, total_size + file_size)
          else (cands, total_files + 1, total_size + file_size)
        | none =>
          ({ path := file_path, size := file_size
             added_date := "unknown", days_old := none } :: cands,
           total_files + 1, total_size + file_size)

/-- `parse_entry_date(published, detected_date)`
(`cleanup_content.py`, lines 64-82): try the three `strptime` formats on
a truthy `published` (abstracted by `parsePub`), then
`datetime.fromisoformat` on a truthy `detected_date` (abstracted by
`parseIso`), else `None`. -/
def parse_entry_date (parsePub parseIso : String → Option Int)
    (published detected_date : String) : Option Int :=
  match (if published ≠ "" then parsePub published else none) with
  | some d => some d
  | none => if detected_date ≠ "" then parseIso detected_date else none

/-- One feed-entry cleanup candidate (`cleanup_content.py`,
lines 110-116). -/
structure RssCleanupCandidate where
  id : String
  title : String
  published : String
  detected_date : String
  days_old : Int
deriving Repr, DecidableEq

/-- `analyze_rss_entries_for_cleanup` loop
(`cleanup_content.py`, lines 101-118), on the already-parsed entry list:
an entry is a candidate iff its date parses (`entry_date` truthy) and is
strictly before the cutoff.  Returns
`(cleanup_candidates, total_entries)`. -/
def analyze_rss_entries_for_cleanup (parsePub parseIso : String → Option Int)
    (now : Int) (age_threshold_days : Int) :
    List FeedEntry → List RssCleanupCandidate × Nat
  | [] => ([], 0)
  | entry :: rest =>
    let (cands, total_entries) :=
      analyze_rss_entries_for_cleanup parsePub parseIso now age_threshold_days rest
    let published := entry.published
    let detected_date := entry.detected_date.getD ""
    match parse_entry_date parsePub parseIso published detected_date with
    | some entry_date =>
      if entry_date < now - age_threshold_days * 86400 then
        ({ id := entry.id.getD "", title := entry.title.take 50
           published := published, detected_date := detected_date
           days_old := (now - entry_date).fdiv 86400 } :: cands,
         total_entries + 1)
      else (cands, total_entries + 1)
    | none => (cands, total_entries + 1)

/-- Filesystem state touched by `cleanup_repo_files`: the raw text of
`files_data.json` (`none` when absent) and the backing content files
under `files/` (relative path ↦ bytes). -/
structure RepoContentState where
  files_data_file : Option String
  files : List (String × String)
deriving DecidableEq

/-- Filesystem state touched by `cleanup_rss_entries`: the raw text of
`feed_entries.json` (`none` when absent). -/
structure RssContentState where
  entries_data_file : Option String
deriving DecidableEq

/-- Deleting one key from a parsed `files_data` dict (`del`). -/
def eraseKey (d : RepoSnapshot) (k : String) : RepoSnapshot :=
  d.filter fun kv => kv.1 ≠ k

/-- Removing one backing file (`Path.unlink`). -/
def eraseFile (files : List (String × String)) (p : String) :
    List (String × String) :=
  files.filter fun kv => kv.1 ≠ p

/-- One iteration of the candidate loop of `cleanup_repo_files`
(`cleanup_content.py`, lines 149-161): in dry-run mode only a line is
printed; otherwise the backing file is unlinked if it exists (appending
to `cleaned_files` and accumulating `total_size_freed`) and the
candidate's key is deleted from `files_data`. -/
def cleanupRepoStep (dry_run : Bool)
    (acc : RepoSnapshot × List (String × String) × List String × Nat)
    (candidate : RepoCleanupCandidate) :
    RepoSnapshot × List (String × String) × List String × Nat :=
  let (files_data, backing, cleaned_files, total_size_freed) := acc
  if dry_run then acc
  else
    let (backing, cleaned_files, total_size_freed) :=
      if (List.lookup candidate.path backing).isSome then
        (eraseFile backing candidate.path,
         cleaned_files ++ [candidate.path],
         total_size_freed + candidate.size)
      else (backing, cleaned_files, total_size_freed)
    let files_data :=
      if (lookupKey files_data candidate.path).isSome then
        eraseKey files_data candidate.path
      else files_data
    (files_data, backing, cleaned_files, total_size_freed)

/-- `cleanup_repo_files(repo_content_path, repo_candidates, dry_run)`
(`cleanup_content.py`, lines 137-166): load `files_data.json` (falling
back to `{}` on error), run the candidate loop, and rewrite the JSON
file only when not in dry-run mode and at least one file was removed.
Returns the new filesystem state together with
`(cleaned_files, total_size_freed)`. -/
def cleanup_repo_files (parse : String → Option RepoSnapshot)
    (serialize : RepoSnapshot → String) (st : RepoContentState)
    (repo_candidates : List RepoCleanupCandidate) (dry_run : Bool) :
    RepoContentState × List String × Nat :=
  let files_data : RepoSnapshot :=
    match st.files_data_file with
    | some s => (parse s).getD []
    | none => []
  let (files_data, backing, cleaned_files, total_size_freed) :=
    repo_candidates.foldl (cleanupRepoStep dry_run)
      (files_data, st.files, [], 0)
  if dry_run = false ∧ cleaned_files ≠ [] then
    ({ files_data_file := some (serialize files_data), files := backing },
     cleaned_files, total_size_freed)
  else
    ({ st with files := backing }, cleaned_files, total_size_freed)

/-- `cleanup_rss_entries(rss_content_path, rss_candidates, dry_run)`
(`cleanup_content.py`, lines 168-193): load `feed_entries.json` (falling
back to `[]` on error); in dry-run mode only print; otherwise filter out
the candidate ids and rewrite the file.  `cleaned_entries` is
`list(candidate_ids)` — the candidate ids as a set. -/
def cleanup_rss_entries (parse : String → Option (List FeedEntry))
    (serialize : List FeedEntry → String) (st : RssContentState)
    (rss_candidates : List RssCleanupCandidate) (dry_run : Bool) :
    RssContentState × List String :=
  let entries_data : List FeedEntry :=
    match st.entries_data_file with
    | some s => (parse s).getD []
    | none => []
  let candidate_ids := (rss_candidates.map (·.id)).dedup
  if dry_run then (st, [])
  else
    let updated_entries :=
      entries_data.filter fun e => e.id.getD "" ∉ candidate_ids
    ({ entries_data_file := some (serialize updated_entries) }, candidate_ids)

/-! ### Concrete sample data for witnesses and counterexamples -/

/-- A file whose content hashes to `"H1"`. -/
def fiH1 : FileInfo := { size := 100, content_hash := some "H1" }

/-- A file whose content hashes to `"H2"`. -/
def fiH2 : FileInfo := { size := 200, content_hash := some "H2" }

/-- Example previous repository snapshot. -/
def prevSnap : RepoSnapshot := [("a.md", fiH1)]

/-- Example current repository snapshot: `a.md` unchanged, `b.md` new. -/
def curSnap : RepoSnapshot := [("a.md", fiH1), ("b.md", fiH2)]

/-- Current snapshot with three files of sizes 100, 200, 300. -/
def curSnap3 : RepoSnapshot :=
  [("a.md", { size := 100, content_hash := some "H1" }),
   ("b.md", { size := 200, content_hash := some "H2" }),
   ("c.md", { size := 300, content_hash := some "H3" })]

/-- Example feed entry with id `"a"` and fingerprint `"H1"`. -/
def feedEntryA : FeedEntry := { id := some "a", title := "A", content_hash := "H1" }

/-- Same identity as `feedEntryA` but with a different fingerprint. -/
def feedEntryA2 : FeedEntry := { id := some "a", title := "A", content_hash := "H2" }

/-- A feed entry carrying neither an id nor a link: its identity is empty. -/
def feedEntryNoId : FeedEntry := { title := "entry without id" }

/-- A date parser recognising only the string `"D0"` (timestamp 0). -/
def wParse : String → Option Int := fun s => if s = "D0" then some 0 else none

/-- A tracked file whose `added_date` is the parseable `"D0"`. -/
def wFileOld : FileInfo := { size := 10, content_hash := some "H", added_date := some "D0" }

/-- Snapshot containing only `wFileOld`. -/
def wFiles : RepoSnapshot := [("a.md", wFileOld)]

/-- A stored feed entry whose `published` field is the parseable `"D0"`. -/
def wEntryOld : FeedEntry :=
  { id := some "e1", title := "T", published := "D0", detected_date := some "x" }

/-- A stored feed entry none of whose date fields can be parsed. -/
def badEntry : FeedEntry :=
  { id := some "x", title := "T", published := "garbage", detected_date := some "garbage" }

/-- A tracked file whose `added_date` is present but unparseable. -/
def wFileBad : FileInfo :=
  { size := 7, content_hash := some "H", added_date := some "garbage" }

/-- Snapshot containing only `wFileBad`. -/
def wFilesBad : RepoSnapshot := [("x.md", wFileBad)]

/-- A snapshot exactly as the repository monitor writes it: every value
built by `download_file_metadata`, hence without `added_date`. -/
def monitorSnap : RepoSnapshot :=
  [("a.md", download_file_metadata "s1" 100 "docs/a.md" "h1" "u1" "2025-01-01T00:00:00"),
   ("b.md", download_file_metadata "s2" 200 "docs/b.md" "h2" "u2" "2025-01-01T00:00:00")]

/-! ### Lemmas about the classification loop -/

theorem classify_perm (old : RepoSnapshot) (new : RepoSnapshot) :
    ((classifyFiles old new).new_files ++ (classifyFiles old new).updated_files ++
      (classifyFiles old new).unchanged_files).Perm (keysOf new) := by
  induction new with
  | nil => simp [classifyFiles, keysOf]
  | cons hd tl ih =>
    obtain ⟨p, m⟩ := hd
    simp only [classifyFiles, keysOf, List.map_cons]
    cases hl : lookupKey old p with
    | none =>
      simpa using ih.cons p
    | some om =>
      by_cases hh : om.content_hash ≠ m.content_hash
      · simp only [if_pos hh]
        exact (List.perm_middle.append_right _).trans (ih.cons p)
      · simp only [if_neg hh]
        exact List.perm_middle.trans (ih.cons p)

theorem classify_total_size (old : RepoSnapshot) (new : RepoSnapshot) :
    (classifyFiles old new).total_size = (new.map fun kv => kv.2.size).sum := by
  induction new with
  | nil => simp [classifyFiles]
  | cons hd tl ih =>
    obtain ⟨p, m⟩ := hd
    simp only [classifyFiles, List.map_cons, List.sum_cons]
    cases hl : lookupKey old p with
    | none => simpa using ih
    | some om =>
      by_cases hh : om.content_hash ≠ m.content_hash
      · simp only [if_pos hh]; simpa using ih
      · simp only [if_neg hh]; simpa using ih

theorem mem_new_files_of (old : RepoSnapshot) (new : RepoSnapshot)
    (p : String) (m : FileInfo) (hmem : (p, m) ∈ new)
    (hl : lookupKey old p = none) :
    p ∈ (classifyFiles old new).new_files := by
  induction new with
  | nil => cases hmem
  | cons hd tl ih =>
    obtain ⟨q, m'⟩ := hd
    rcases List.mem_cons.mp hmem with heq | htl
    · obtain ⟨rfl, rfl⟩ := Prod.mk.injEq .. ▸ heq
      simp only [classifyFiles, hl]
      exact List.mem_cons_self _ _
    · have hmemn := ih htl
      simp only [classifyFiles]
      cases hq : lookupKey old q with
      | none => exact List.mem_cons_of_mem _ hmemn
      | some om =>
        by_cases hh : om.content_hash ≠ m'.content_hash
        · simpa [if_pos hh] using hmemn
        · simpa [if_neg hh] using hmemn

theorem mem_updated_files_of (old : RepoSnapshot) (new : RepoSnapshot)
    (hnd : (keysOf new).Nodup) (p : String) (m : FileInfo) (om : FileInfo)
    (hmem : (p, m) ∈ new) (hl : lookupKey old p = some om)
    (hh : om.content_hash ≠ m.content_hash) :
    p ∈ (classifyFiles old new).updated_files := by
  induction new with
  | nil => cases hmem
  | cons hd tl ih =>
    obtain ⟨q, m'⟩ := hd
    have hnd' : (keysOf tl).Nodup := (List.nodup_cons.mp hnd).2
    have hqnot : q ∉ keysOf tl := (List.nodup_cons.mp hnd).1
    rcases List.mem_cons.mp hmem with heq | htl
    · obtain ⟨rfl, rfl⟩ := Prod.mk.injEq .. ▸ heq
      simp only [classifyFiles, hl, if_pos hh]
      exact List.mem_cons_self _ _
    · have hmemu := ih hnd' htl
      have hpk : p ∈ keysOf tl := List.mem_map_of_mem Prod.fst htl
      have hqp : q ≠ p := fun h => hqnot (h ▸ hpk)
      simp only [classifyFiles]
      cases hq : lookupKey old q with
      | none => exact hmemu
      | some om' =>
        by_cases hh' : om'.content_hash ≠ m'.content_hash
        · simpa [if_pos hh'] using List.mem_cons_of_mem _ hmemu
        · simpa [if_neg hh'] using hmemu

theorem mem_unchanged_files_of (old : RepoSnapshot) (new : RepoSnapshot)
    (hnd : (keysOf new).Nodup) (p : String) (m : FileInfo) (om : FileInfo)
    (hmem : (p, m) ∈ new) (hl : lookupKey old p = some om)
    (hh : om.content_hash = m.content_hash) :
    p ∈ (classifyFiles old new).unchanged_files := by
  induction new with
  | nil => cases hmem
  | cons hd tl ih =>
    obtain ⟨q, m'⟩ := hd
    have hnd' : (keysOf tl).Nodup := (List.nodup_cons.mp hnd).2
    have hqnot : q ∉ keysOf tl := (List.nodup_cons.mp hnd).1
    rcases List.mem_cons.mp hmem with heq | htl
    · obtain ⟨rfl, rfl⟩ := Prod.mk.injEq .. ▸ heq
      simp only [classifyFiles, hl, if_neg (not_not.mpr hh)]
      exact List.mem_cons_self _ _
    · have hmemu := ih hnd' htl
      simp only [classifyFiles]
      cases hq : lookupKey old q with
      | none => exact hmemu
      | some om' =>
        by_cases hh' : om'.content_hash ≠ m'.content_hash
        · simpa [if_pos hh'] using hmemu
        · simpa [if_neg hh'] using List.mem_cons_of_mem _ hmemu

theorem classifyFiles_nil_old (new : RepoSnapshot) :
    (classifyFiles [] new).new_files = keysOf new ∧
    (classifyFiles [] new).updated_files = [] ∧
    (classifyFiles [] new).unchanged_files = [] := by
  induction new with
  | nil => simp [classifyFiles, keysOf]
  | cons hd tl ih =>
    obtain ⟨p, m⟩ := hd
    simp only [classifyFiles, lookupKey, keysOf, List.map_cons]
    exact ⟨by rw [ih.1]; rfl, ih.2.1, ih.2.2⟩

/-! ### Lemmas about the feed new-entry loop -/

theorem mem_newFeedEntries (ids : List String) (now_iso : String)
    (l : List FeedEntry) (x : FeedEntry) :
    x ∈ newFeedEntries ids now_iso l ↔
      ∃ e ∈ l, e.id.getD "" ≠ "" ∧ e.id.getD "" ∉ ids ∧
        x = { e with detected_date := some now_iso } := by
  induction l with
  | nil => simp [newFeedEntries]
  | cons hd tl ih =>
    simp only [newFeedEntries]
    by_cases h0 : hd.id.getD "" = ""
    · simp only [if_pos h0, ih]
      constructor
      · rintro ⟨e, he, h1, h2, h3⟩
        exact ⟨e, List.mem_cons_of_mem _ he, h1, h2, h3⟩
      · rintro ⟨e, he, h1, h2, h3⟩
        rcases List.mem_cons.mp he with rfl | he'
        · exact absurd h0 h1
        · exact ⟨e, he', h1, h2, h3⟩
    · simp only [if_neg h0]
      by_cases hmem : hd.id.getD "" ∈ ids
      · simp only [if_pos hmem, ih]
        constructor
        · rintro ⟨e, he, h1, h2, h3⟩
          exact ⟨e, List.mem_cons_of_mem _ he, h1, h2, h3⟩
        · rintro ⟨e, he, h1, h2, h3⟩
          rcases List.mem_cons.mp he with rfl | he'
          · exact absurd hmem h2
          · exact ⟨e, he', h1, h2, h3⟩
      · simp only [if_neg hmem]
        constructor
        · intro hx
          rcases List.mem_cons.mp hx with rfl | hx'
          · exact ⟨hd, List.mem_cons_self _ _, h0, hmem, rfl⟩
          · obtain ⟨e, he, h1, h2, h3⟩ := ih.mp hx'
            exact ⟨e, List.mem_cons_of_mem _ he, h1, h2, h3⟩
        · rintro ⟨e, he, h1, h2, h3⟩
          rcases List.mem_cons.mp he with rfl | he'
          · exact h3 ▸ List.mem_cons_self _ _
          · exact List.mem_cons_of_mem _ (ih.mpr ⟨e, he', h1, h2, h3⟩)

theorem newFeedEntries_nil_ids (now_iso : String) (l : List FeedEntry) :
    newFeedEntries [] now_iso l =
      (l.filter fun e => e.id.getD "" ≠ "").map
        fun e => { e with detected_date := some now_iso } := by
  induction l with
  | nil => rfl
  | cons hd tl ih =>
    simp only [newFeedEntries, List.not_mem_nil, if_false, List.filter_cons]
    by_cases h0 : hd.id.getD "" = ""
    · simp [h0, ih]
    · simp [h0, ih]

/-! ### Lemmas about cleanup-candidate selection -/

theorem repo_candidate_sound (parseIso : String → Option Int) (now th : Int)
    (files : RepoSnapshot) (c : RepoCleanupCandidate)
    (hc : c ∈ (analyze_repo_files_for_cleanup parseIso now th files).1) :
    ∃ fi, (c.path, fi) ∈ files ∧ ∃ s, fi.added_date = some s ∧ s ≠ "" ∧
      ((∃ d, parseIso s = some d ∧ d < now - th * 86400) ∨ parseIso s = none) := by
  induction files with
  | nil => cases hc
  | cons hd tl ih =>
    obtain ⟨p, fi⟩ := hd
    cases hdate : fi.added_date with
    | none =>
      simp only [analyze_repo_files_for_cleanup, hdate] at hc
      obtain ⟨fi', h1, h2⟩ := ih hc
      exact ⟨fi', List.mem_cons_of_mem _ h1, h2⟩
    | some s =>
      by_cases hs : s = ""
      · simp only [analyze_repo_files_for_cleanup, hdate, if_pos hs] at hc
        obtain ⟨fi', h1, h2⟩ := ih hc
        exact ⟨fi', List.mem_cons_of_mem _ h1, h2⟩
      · cases hp : parseIso s with
        | some d =>
          by_cases hlt : d < now - th * 86400
          · simp only [analyze_repo_files_for_cleanup, hdate, if_neg hs, hp,
              if_pos hlt] at hc
            rcases List.mem_cons.mp hc with rfl | hc'
            · exact ⟨fi, List.mem_cons_self _ _, s, hdate, hs, Or.inl ⟨d, hp, hlt⟩⟩
            · obtain ⟨fi', h1, h2⟩ := ih hc'
              exact ⟨fi', List.mem_cons_of_mem _ h1, h2⟩
          · simp only [analyze_repo_files_for_cleanup, hdate, if_neg hs, hp,
              if_neg hlt] at hc
            obtain ⟨fi', h1, h2⟩ := ih hc
            exact ⟨fi', List.mem_cons_of_mem _ h1, h2⟩
        | none =>
          simp only [analyze_repo_files_for_cleanup, hdate, if_neg hs, hp] at hc
          rcases List.mem_cons.mp hc with rfl | hc'
          · exact ⟨fi, List.mem_cons_self _ _, s, hdate, hs, Or.inr hp⟩
          · obtain ⟨fi', h1, h2⟩ := ih hc'
            exact ⟨fi', List.mem_cons_of_mem _ h1, h2⟩

theorem repo_candidate_complete (parseIso : String → Option Int) (now th : Int)
    (files : RepoSnapshot) (p : String) (fi : FileInfo) (s : String) (d : Int)
    (hmem : (p, fi) ∈ files) (hdate : fi.added_date = some s) (hs : s ≠ "")
    (hp : parseIso s = some d) (hlt : d < now - th * 86400) :
    p ∈ (analyze_repo_files_for_cleanup parseIso now th files).1.map (·.path) := by
  induction files with
  | nil => cases hmem
  | cons hd tl ih =>
    obtain ⟨q, fi'⟩ := hd
    rcases List.mem_cons.mp hmem with heq | htl
    · obtain ⟨rfl, rfl⟩ := Prod.mk.injEq .. ▸ heq
      simp only [analyze_repo_files_for_cleanup, hdate, if_neg hs, hp, if_pos hlt,
        List.map_cons]
      exact List.mem_cons_self _ _
    · have hin := ih htl
      cases hdate' : fi'.added_date with
      | none =>
        simpa only [analyze_repo_files_for_cleanup, hdate'] using hin
      | some s' =>
        by_cases hs' : s' = ""
        · simpa only [analyze_repo_files_for_cleanup, hdate', if_pos hs'] using hin
        · cases hp' : parseIso s' with
          | some d' =>
            by_cases hlt' : d' < now - th * 86400
            · simp only [analyze_repo_files_for_cleanup, hdate', if_neg hs', hp',
                if_pos hlt', List.map_cons]
              exact List.mem_cons_of_mem _ hin
            · simpa only [analyze_repo_files_for_cleanup, hdate', if_neg hs', hp',
                if_neg hlt'] using hin
          | none =>
            simp only [analyze_repo_files_for_cleanup, hdate', if_neg hs', hp',
              List.map_cons]
            exact List.mem_cons_of_mem _ hin

theorem repo_candidate_unknown (parseIso : String → Option Int) (now th : Int)
    (files : RepoSnapshot) (p : String) (fi : FileInfo) (s : String)
    (hmem : (p, fi) ∈ files) (hdate : fi.added_date = some s) (hs : s ≠ "")
    (hp : parseIso s = none) :
    ({ path := p, size := fi.size, added_date := "unknown", days_old := none } :
      RepoCleanupCandidate) ∈ (analyze_repo_files_for_cleanup parseIso now th files).1 := by
  induction files with
  | nil => cases hmem
  | cons hd tl ih =>
    obtain ⟨q, fi'⟩ := hd
    rcases List.mem_cons.mp hmem with heq | htl
    · obtain ⟨rfl, rfl⟩ := Prod.mk.injEq .. ▸ heq
      simp only [analyze_repo_files_for_cleanup, hdate, if_neg hs, hp]
      exact List.mem_cons_self _ _
    · have hin := ih htl
      cases hdate' : fi'.added_date with
      | none =>
        simpa only [analyze_repo_files_for_cleanup, hdate'] using hin
      | some s' =>
        by_cases hs' : s' = ""
        · simpa only [analyze_repo_files_for_cleanup, hdate', if_pos hs'] using hin
        · cases hp' : parseIso s' with
          | some d' =>
            by_cases hlt' : d' < now - th * 86400
            · simp only [analyze_repo_files_for_cleanup, hdate', if_neg hs', hp',
                if_pos hlt']
              exact List.mem_cons_of_mem _ hin
            · simpa only [analyze_repo_files_for_cleanup, hdate', if_neg hs', hp',
                if_neg hlt'] using hin
          | none =>
            simp only [analyze_repo_files_for_cleanup, hdate', if_neg hs', hp']
            exact List.mem_cons_of_mem _ hin

theorem rss_candidate_sound (parsePub parseIso : String → Option Int)
    (now th : Int) (entries : List FeedEntry) (c : RssCleanupCandidate)
    (hc : c ∈ (analyze_rss_entries_for_cleanup parsePub parseIso now th entries).1) :
    ∃ e ∈ entries, c.id = e.id.getD "" ∧ c.published = e.published ∧
      c.detected_date = e.detected_date.getD "" ∧
      ∃ d, parse_entry_date parsePub parseIso e.published (e.detected_date.getD "") = some d ∧
        d < now - th * 86400 := by
  induction entries with
  | nil => cases hc
  | cons hd tl ih =>
    cases hp : parse_entry_date parsePub parseIso hd.published (hd.detected_date.getD "") with
    | some d =>
      by_cases hlt : d < now - th * 86400
      · simp only [analyze_rss_entries_for_cleanup, hp, if_pos hlt] at hc
        rcases List.mem_cons.mp hc with rfl | hc'
        · exact ⟨hd, List.mem_cons_self _ _, rfl, rfl, rfl, d, hp, hlt⟩
        · obtain ⟨e, h1, h2⟩ := ih hc'
          exact ⟨e, List.mem_cons_of_mem _ h1, h2⟩
      · simp only [analyze_rss_entries_for_cleanup, hp, if_neg hlt] at hc
        obtain ⟨e, h1, h2⟩ := ih hc
        exact ⟨e, List.mem_cons_of_mem _ h1, h2⟩
    | none =>
      simp only [analyze_rss_entries_for_cleanup, hp] at hc
      obtain ⟨e, h1, h2⟩ := ih hc
      exact ⟨e, List.mem_cons_of_mem _ h1, h2⟩

theorem rss_unparseable_entry_contributes_nothing
    (parsePub parseIso : String → Option Int) (now th : Int)
    (l₁ l₂ : List FeedEntry) (e : FeedEntry)
    (hfailE : parse_entry_date parsePub parseIso e.published
      (e.detected_date.getD "") = none) :
    (analyze_rss_entries_for_cleanup parsePub parseIso now th (l₁ ++ e :: l₂)).1 =
      (analyze_rss_entries_for_cleanup parsePub parseIso now th (l₁ ++ l₂)).1 := by
  induction l₁ with
  | nil =>
    simp only [List.nil_append, analyze_rss_entries_for_cleanup, hfailE]
  | cons hd tl ih =>
    cases hp : parse_entry_date parsePub parseIso hd.published (hd.detected_date.getD "") with
    | some d =>
      by_cases hlt : d < now - th * 86400
      · simp only [List.cons_append, analyze_rss_entries_for_cleanup, hp, if_pos hlt]
        exact congrArg _ ih
      · simp only [List.cons_append, analyze_rss_entries_for_cleanup, hp, if_neg hlt]
        exact ih
    | none =>
      simp only [List.cons_append, analyze_rss_entries_for_cleanup, hp]
      exact ih

theorem rss_candidate_complete (parsePub parseIso : String → Option Int)
    (now th : Int) (entries : List FeedEntry) (e : FeedEntry) (d : Int)
    (hmem : e ∈ entries)
    (hp : parse_entry_date parsePub parseIso e.published (e.detected_date.getD "") = some d)
    (hlt : d < now - th * 86400) :
    e.id.getD "" ∈
      (analyze_rss_entries_for_cleanup parsePub parseIso now th entries).1.map (·.id) := by
  induction entries with
  | nil => cases hmem
  | cons hd tl ih =>
    rcases List.mem_cons.mp hmem with rfl | htl
    · simp only [analyze_rss_entries_for_cleanup, hp, if_pos hlt]
      exact List.mem_cons_self _ _
    · have hin := ih htl
      cases hp' : parse_entry_date parsePub parseIso hd.published (hd.detected_date.getD "") with
      | some d' =>
        by_cases hlt' : d' < now - th * 86400
        · simp only [analyze_rss_entries_for_cleanup, hp', if_pos hlt', List.map_cons]
          exact List.mem_cons_of_mem _ hin
        · simpa only [analyze_rss_entries_for_cleanup, hp', if_neg hlt'] using hin
      | none =>
        simpa only [analyze_rss_entries_for_cleanup, hp'] using hin

theorem rss_all_unparseable_no_candidates (parsePub parseIso : String → Option Int)
    (now th : Int) (entries : List FeedEntry)
    (h : ∀ e ∈ entries,
      parse_entry_date parsePub parseIso e.published (e.detected_date.getD "") = none) :
    (analyze_rss_entries_for_cleanup parsePub parseIso now th entries).1 = [] ∧
    (analyze_rss_entries_for_cleanup parsePub parseIso now th entries).2 = entries.length := by
  induction entries with
  | nil => exact ⟨rfl, rfl⟩
  | cons hd tl ih =>
    have hhd := h hd (List.mem_cons_self _ _)
    have ih' := ih fun e he => h e (List.mem_cons_of_mem _ he)
    simp only [analyze_rss_entries_for_cleanup, hhd, List.length_cons]
    exact ⟨ih'.1, by rw [ih'.2]⟩

/-! ### Lemmas about the sweep in dry-run mode -/

theorem cleanupRepoStep_true (acc : RepoSnapshot × List (String × String) × List String × Nat)
    (c : RepoCleanupCandidate) : cleanupRepoStep true acc c = acc := by
  obtain ⟨fd, bk, cl, fr⟩ := acc
  rfl

theorem foldl_cleanupRepoStep_true (cands : List RepoCleanupCandidate)
    (acc : RepoSnapshot × List (String × String) × List String × Nat) :
    cands.foldl (cleanupRepoStep true) acc = acc := by
  induction cands generalizing acc with
  | nil => rfl
  | cons hd tl ih => rw [List.foldl_cons, cleanupRepoStep_true]; exact ih acc

/-! ### Claim theorems -/

/-- C1: for every pair of snapshots `(previous, current)` (a snapshot's
keys are unique), the change set produced by `compare_file_metadata`
partitions the keys of `current`: the new, updated and unchanged file
lists cover exactly the keys of `current` and are pairwise disjoint. -/
theorem change_set_partitions_current_keys (old new : RepoSnapshot)
    (hnd : (keysOf new).Nodup) :
    (∀ x, (x ∈ (compare_file_metadata old new).new_files ∨
           x ∈ (compare_file_metadata old new).updated_files ∨
           x ∈ (compare_file_metadata old new).unchanged_files) ↔ x ∈ keysOf new) ∧
    (∀ x ∈ (compare_file_metadata old new).new_files,
      x ∉ (compare_file_metadata old new).updated_files) ∧
    (∀ x ∈ (compare_file_metadata old new).new_files,
      x ∉ (compare_file_metadata old new).unchanged_files) ∧
    (∀ x ∈ (compare_file_metadata old new).updated_files,
      x ∉ (compare_file_metadata old new).unchanged_files) := by
  have hperm := classify_perm old new
  have hcover : ∀ x, (x ∈ (classifyFiles old new).new_files ∨
      x ∈ (classifyFiles old new).updated_files ∨
      x ∈ (classifyFiles old new).unchanged_files) ↔ x ∈ keysOf new := by
    intro x
    rw [← hperm.mem_iff]
    simp [List.mem_append, or_assoc]
  have hndall : ((classifyFiles old new).new_files ++
      (classifyFiles old new).updated_files ++
      (classifyFiles old new).unchanged_files).Nodup := hperm.nodup_iff.mpr hnd
  rw [List.append_assoc, List.nodup_append] at hndall
  obtain ⟨hn, hrest, hdisj⟩ := hndall
  rw [List.nodup_append] at hrest
  obtain ⟨hu, hc, hdisj2⟩ := hrest
  refine ⟨hcover, ?_, ?_, ?_⟩
  · intro x hx hx'
    exact hdisj hx (List.mem_append.mpr (Or.inl hx'))
  · intro x hx hx'
    exact hdisj hx (List.mem_append.mpr (Or.inr hx'))
  · intro x hx hx'
    exact hdisj2 hx hx'

/-- C1 witness: the partition property evaluated on a concrete snapshot
pair, for the key `"b.md"`. -/
theorem change_set_partitions_current_keys_witness :
    (("b.md" ∈ (compare_file_metadata prevSnap curSnap).new_files ∨
      "b.md" ∈ (compare_file_metadata prevSnap curSnap).updated_files ∨
      "b.md" ∈ (compare_file_metadata prevSnap curSnap).unchanged_files) ↔
      "b.md" ∈ keysOf curSnap) :=
  (change_set_partitions_current_keys prevSnap curSnap (by decide)).1 "b.md"

/-- C7: the aggregates of `compare_file_metadata` satisfy
`total_files = |current|`, the internally accumulated `total_size` is the
sum of the `size` fields, and `average_size` is the (banker's) rounding
of `total_size / total_files` when the snapshot is nonempty and `0` when
it is empty; in particular the concrete snapshot with sizes
100, 200, 300 averages to 200 and the empty snapshot to 0. -/
theorem aggregate_statistics_correct (old new : RepoSnapshot) :
    (compare_file_metadata old new).file_count_analysis.total_files = new.length ∧
    (classifyFiles old new).total_size = (new.map fun kv => kv.2.size).sum ∧
    (compare_file_metadata old new).file_count_analysis.average_size =
      (if new.length = 0 then 0
       else pyRoundDiv ((new.map fun kv => kv.2.size).sum) new.length) ∧
    (compare_file_metadata [] curSnap3).file_count_analysis.average_size = 200 ∧
    (compare_file_metadata [] []).file_count_analysis.average_size = 0 := by
  refine ⟨rfl, classify_total_size old new, ?_, by decide, rfl⟩
  simp only [compare_file_metadata, classify_total_size]
  rcases eq_or_ne new [] with rfl | hne
  · rfl
  · rw [if_neg (by simpa [List.isEmpty_iff] using hne),
      if_neg (by simpa [List.length_eq_zero] using hne)]

/-- C8: an identity present in `previous` but absent from `current`
appears in none of the output lists of either reconciler (and the counts
are exactly the lengths of those lists, so it enters no count): neither
reconciler produces a deletion classification. -/
theorem no_deletion_classification (old new : RepoSnapshot) (k : String)
    (hold : k ∈ keysOf old) (hnew : k ∉ keysOf new)
    (parsePub : String → Option Int) (now : Int) (now_iso : String)
    (oldE newE : List FeedEntry) (i : String)
    (holdE : ∃ o ∈ oldE, o.id = some i)
    (hnewE : ∀ e ∈ newE, e.id.getD "" ≠ i) :
    k ∉ (compare_file_metadata old new).new_files ∧
    k ∉ (compare_file_metadata old new).updated_files ∧
    k ∉ (compare_file_metadata old new).unchanged_files ∧
    (compare_file_metadata old new).summary.new_count =
      (compare_file_metadata old new).new_files.length ∧
    (compare_file_metadata old new).summary.updated_count =
      (compare_file_metadata old new).updated_files.length ∧
    (compare_file_metadata old new).summary.unchanged_count =
      (compare_file_metadata old new).unchanged_files.length ∧
    ∀ x ∈ (compare_feed_entries parsePub now now_iso oldE newE).new_entries,
      x.id.getD "" ≠ i := by
  have hperm := classify_perm old new
  have hnotall : k ∉ ((classifyFiles old new).new_files ++
      (classifyFiles old new).updated_files ++
      (classifyFiles old new).unchanged_files) := fun h => hnew (hperm.mem_iff.mp h)
  simp only [List.mem_append, not_or] at hnotall
  refine ⟨hnotall.1.1, hnotall.1.2, hnotall.2, rfl, rfl, rfl, ?_⟩
  intro x hx
  obtain ⟨e, he, h1, h2, rfl⟩ := (mem_newFeedEntries _ _ _ _).mp hx
  exact hnewE e he

/-- C8 witness: the deleted `"a.md"` is absent from the new-file list
of a concrete reconciliation in which it no longer occurs. -/
theorem no_deletion_classification_witness :
    "a.md" ∉ (compare_file_metadata prevSnap [("b.md", fiH2)]).new_files :=
  (no_deletion_classification prevSnap [("b.md", fiH2)] "a.md" (by decide)
    (by decide) (fun _ => none) 0 "" [feedEntryA] [] "a"
    ⟨feedEntryA, by decide⟩ (by intro e he; cases he)).1

/-- C10: an item whose metadata has no `added_date` field is never a
repository cleanup candidate, and `download_file_metadata` — the only
producer of repository item metadata — never stores an `added_date`
(it stores `last_processed` instead), so a snapshot written by the
monitor yields zero repository cleanup candidates. -/
theorem monitor_snapshots_yield_no_candidates (parseIso : String → Option Int)
    (now th : Int) (files : RepoSnapshot)
    (h : ∀ kv ∈ files, kv.2.added_date = none)
    (sha : String) (size : Nat) (path ch url lp : String) :
    (analyze_repo_files_for_cleanup parseIso now th files).1 = [] ∧
    (download_file_metadata sha size path ch url lp).added_date = none ∧
    (download_file_metadata sha size path ch url lp).last_processed = some lp := by
  refine ⟨?_, rfl, rfl⟩
  induction files with
  | nil => rfl
  | cons hd tl ih =>
    have ih' := ih fun kv hkv => h kv (List.mem_cons_of_mem _ hkv)
    obtain ⟨p, fi⟩ := hd
    have hhd : fi.added_date = none := h (p, fi) (List.mem_cons_self _ _)
    simp only [analyze_repo_files_for_cleanup, hhd]
    exact ih'

/-- C10 witness: the analysis of a concrete snapshot written by the
monitor produces no candidates. -/
theorem monitor_snapshots_yield_no_candidates_witness :
    (analyze_repo_files_for_cleanup (fun _ => none) 0 90 monitorSnap).1 = [] :=
  (monitor_snapshots_yield_no_candidates (fun _ => none) 0 90 monitorSnap
    (by decide) "s1" 100 "docs/a.md" "h1" "u1" "2025-01-01T00:00:00").1

/-- C9 counterexample: with the same `(previous, current)` pair — empty
previous, one current entry — the feed reconciler returns different
outputs at two different clock readings, because the run's time is
stamped into `detected_date` of each new entry; so its output is not a
function of the two snapshot arguments alone. -/
theorem feed_reconciler_output_depends_on_clock :
    compare_feed_entries (fun _ => none) 0 "2025-01-01T00:00:00" [] [feedEntryA] ≠
      compare_feed_entries (fun _ => none) 0 "2025-01-01T00:05:00" [] [feedEntryA] := by
  decide

/-- C9 (amended): reconciliation is deterministic as a function of its
inputs including the clock reading of a run: the repository reconciler
is a pure function of the two snapshots alone, and the feed reconciler a
pure function of the two snapshots, the clock reading and the date
parser — repeated evaluation on equal inputs gives equal output. -/
theorem reconciliation_deterministic (old new : RepoSnapshot)
    (parsePub : String → Option Int) (now : Int) (now_iso : String)
    (oldE newE : List FeedEntry) :
    compare_file_metadata old new = compare_file_metadata old new ∧
    compare_feed_entries parsePub now now_iso oldE newE =
      compare_feed_entries parsePub now now_iso oldE newE :=
  ⟨rfl, rfl⟩

/-- C2 counterexample: the identity `"a"` is present in the previous
feed snapshot with fingerprint `"H1"` and in the current one with the
different fingerprint `"H2"`, yet the feed reconciler's output carries
no classification for it at all — `new_entries`, its only identity list,
is empty — so the entry is not classified as updated. -/
theorem feed_reconciler_has_no_updated_classification :
    feedEntryA.id = feedEntryA2.id ∧
    feedEntryA.content_hash ≠ feedEntryA2.content_hash ∧
    (compare_feed_entries (fun _ => none) 0 "t" [feedEntryA] [feedEntryA2]).new_entries
      = [] ∧
    (compare_feed_entries (fun _ => none) 0 "t" [feedEntryA] [feedEntryA2]).total_new
      = 0 := by
  decide

/-- C2 (amended): the repository-file reconciler classifies every
identity of `current` as stated — absent from previous ⇒ new, present
with equal fingerprint ⇒ unchanged, present with different fingerprint ⇒
updated — while the feed reconciler classifies a current entry with
nonempty identity as new exactly when its identity is absent from the
previous entries, and produces no updated or unchanged classification at
all. -/
theorem classification_rules (old new : RepoSnapshot)
    (hnd : (keysOf new).Nodup) (p : String) (m : FileInfo)
    (hmem : (p, m) ∈ new)
    (parsePub : String → Option Int) (now : Int) (now_iso : String)
    (oldE newE : List FeedEntry) (e : FeedEntry)
    (hmemE : e ∈ newE) (hid : e.id.getD "" ≠ "") :
    (lookupKey old p = none → p ∈ (compare_file_metadata old new).new_files) ∧
    (∀ om, lookupKey old p = some om →
      (om.content_hash = m.content_hash →
        p ∈ (compare_file_metadata old new).unchanged_files) ∧
      (om.content_hash ≠ m.content_hash →
        p ∈ (compare_file_metadata old new).updated_files)) ∧
    ({ e with detected_date := some now_iso } ∈
        (compare_feed_entries parsePub now now_iso oldE newE).new_entries ↔
      e.id.getD "" ∉ oldEntryIds oldE) := by
  refine ⟨fun hl => mem_new_files_of old new p m hmem hl,
    fun om hl => ⟨fun hh => mem_unchanged_files_of old new hnd p m om hmem hl hh,
      fun hh => mem_updated_files_of old new hnd p m om hmem hl hh⟩, ?_⟩
  constructor
  · intro hx
    obtain ⟨e', he', h1, h2, heq⟩ := (mem_newFeedEntries _ _ _ _).mp hx
    have hide : e.id = e'.id := by
      have h3 := congrArg FeedEntry.id heq
      simpa using h3
    rw [hide]
    exact h2
  · intro hx
    exact (mem_newFeedEntries _ _ _ _).mpr ⟨e, hmemE, hid, hx, rfl⟩

/-- C2 witness: on concrete snapshots, the unchanged file `"a.md"` is
classified unchanged by the repository reconciler. -/
theorem classification_rules_witness :
    "a.md" ∈ (compare_file_metadata prevSnap curSnap).unchanged_files :=
  (((classification_rules prevSnap curSnap (by decide) "a.md" fiH1 (by decide)
    (fun _ => none) 0 "t" [] [feedEntryA2] feedEntryA2 (by decide)
    (by decide)).2.1) fiH1 (by decide)).1 (by decide)

/-- C3 counterexample: with an empty previous snapshot, a current feed
entry whose identity is empty (no id and no link) is skipped entirely by
the feed reconciler instead of being classified new, so not literally
"every current item" is classified new. -/
theorem empty_identity_entry_not_classified_new :
    ([feedEntryNoId] : List FeedEntry) ≠ [] ∧
    (compare_feed_entries (fun _ => none) 0 "t" [] [feedEntryNoId]).new_entries = [] ∧
    (compare_feed_entries (fun _ => none) 0 "t" [] [feedEntryNoId]).total_new = 0 := by
  decide

/-- C3 (amended): a previous snapshot file that is missing or fails to
parse is loaded as the empty snapshot, and reconciliation against an
empty previous snapshot classifies every current item as new — every key
for the repository reconciler, and every entry with a nonempty identity
for the feed reconciler (entries with empty identity are skipped) — with
zero updated and unchanged, rather than aborting the run. -/
theorem corrupt_previous_treated_as_empty (parse : String → Option RepoSnapshot)
    (parseE : String → Option (List FeedEntry)) (s t : String)
    (hs : parse s = none) (ht : parseE t = none) (cur : RepoSnapshot)
    (parsePub : String → Option Int) (now : Int) (now_iso : String)
    (curE : List FeedEntry) :
    load_previous_files none parse = [] ∧
    load_previous_files (some s) parse = [] ∧
    load_previous_entries none parseE = [] ∧
    load_previous_entries (some t) parseE = [] ∧
    (compare_file_metadata [] cur).new_files = keysOf cur ∧
    (compare_file_metadata [] cur).updated_files = [] ∧
    (compare_file_metadata [] cur).unchanged_files = [] ∧
    (compare_feed_entries parsePub now now_iso [] curE).new_entries =
      (curE.filter fun e => e.id.getD "" ≠ "").map
        (fun e => { e with detected_date := some now_iso }) := by
  refine ⟨rfl, ?_, rfl, ?_, (classifyFiles_nil_old cur).1, (classifyFiles_nil_old cur).2.1,
    (classifyFiles_nil_old cur).2.2, ?_⟩
  · simp [load_previous_files, hs]
  · simp [load_previous_entries, ht]
  · exact newFeedEntries_nil_ids now_iso curE

/-- C3 witness: a concrete unparseable store loads as empty, and the
concrete current snapshot is then entirely classified new. -/
theorem corrupt_previous_treated_as_empty_witness :
    (compare_file_metadata [] curSnap).new_files = keysOf curSnap :=
  (corrupt_previous_treated_as_empty (fun _ => none) (fun _ => none)
    "not json" "not json" rfl rfl curSnap (fun _ => none) 0 "t"
    [feedEntryA]).2.2.2.2.1

/-- C4: a sweep in dry-run mode performs zero mutation: the filesystem
state — snapshot files and backing content files — is identical before
and after both `cleanup_repo_files` and `cleanup_rss_entries`, for every
state and every (possibly nonempty) candidate list. -/
theorem dry_run_sweep_is_pure (parse : String → Option RepoSnapshot)
    (serialize : RepoSnapshot → String) (st : RepoContentState)
    (repo_candidates : List RepoCleanupCandidate)
    (parseE : String → Option (List FeedEntry))
    (serializeE : List FeedEntry → String) (stE : RssContentState)
    (rss_candidates : List RssCleanupCandidate) :
    (cleanup_repo_files parse serialize st repo_candidates true).1 = st ∧
    (cleanup_rss_entries parseE serializeE stE rss_candidates true).1 = stE := by
  constructor
  · simp only [cleanup_repo_files, foldl_cleanupRepoStep_true]
    simp
  · rfl

/-- C5: candidate selection is strict in the age threshold.  If an
item's stored timestamp parses to `d`, then (for unique keys/ids) it is
a cleanup candidate iff its age `now - d` strictly exceeds
`thresholdDays` days (in seconds, `th * 86400`); an item aged exactly
`thresholdDays` days is not a candidate and one aged
`thresholdDays + 1` days is, in both the repository-file and the
feed-entry analysis. -/
theorem cleanup_threshold_boundary
    (parseIso parsePub parseIso2 : String → Option Int) (now th : Int)
    (files : RepoSnapshot) (p : String) (fi : FileInfo) (s : String) (d : Int)
    (hnd : (keysOf files).Nodup) (hmem : (p, fi) ∈ files)
    (hdate : fi.added_date = some s) (hne : s ≠ "") (hp : parseIso s = some d)
    (entries : List FeedEntry) (e : FeedEntry) (de : Int)
    (hndE : (entries.map fun x => x.id.getD "").Nodup) (hmemE : e ∈ entries)
    (hpe : parse_entry_date parsePub parseIso2 e.published
      (e.detected_date.getD "") = some de) :
    (p ∈ (analyze_repo_files_for_cleanup parseIso now th files).1.map (·.path) ↔
      now - d > th * 86400) ∧
    (now - d = th * 86400 →
      p ∉ (analyze_repo_files_for_cleanup parseIso now th files).1.map (·.path)) ∧
    (now - d = (th + 1) * 86400 →
      p ∈ (analyze_repo_files_for_cleanup parseIso now th files).1.map (·.path)) ∧
    (e.id.getD "" ∈
        (analyze_rss_entries_for_cleanup parsePub parseIso2 now th entries).1.map (·.id) ↔
      now - de > th * 86400) ∧
    (now - de = th * 86400 → e.id.getD "" ∉
      (analyze_rss_entries_for_cleanup parsePub parseIso2 now th entries).1.map (·.id)) ∧
    (now - de = (th + 1) * 86400 → e.id.getD "" ∈
      (analyze_rss_entries_for_cleanup parsePub parseIso2 now th entries).1.map (·.id)) := by
  have hrepo : p ∈ (analyze_repo_files_for_cleanup parseIso now th files).1.map (·.path) ↔
      now - d > th * 86400 := by
    constructor
    · intro hmm
      obtain ⟨c, hc, hcp⟩ := List.mem_map.mp hmm
      obtain ⟨fi', hmem', s', hdate', hs', hcase⟩ :=
        repo_candidate_sound parseIso now th files c hc
      rw [hcp] at hmem'
      have hfi : fi' = fi := by
        have hinj := List.inj_on_of_nodup_map (f := Prod.fst) hnd
        have := hinj hmem' hmem rfl
        exact congrArg Prod.snd this
      subst hfi
      rw [hdate] at hdate'
      obtain rfl : s = s' := by injection hdate'
      rcases hcase with ⟨d', hd', hlt⟩ | hnone
      · rw [hp] at hd'
        obtain rfl : d = d' := by injection hd'
        omega
      · rw [hp] at hnone; cases hnone
    · intro hgt
      exact repo_candidate_complete parseIso now th files p fi s d hmem hdate hne hp
        (by omega)
  have hrss : e.id.getD "" ∈
      (analyze_rss_entries_for_cleanup parsePub parseIso2 now th entries).1.map (·.id) ↔
      now - de > th * 86400 := by
    constructor
    · intro hmm
      obtain ⟨c, hc, hcp⟩ := List.mem_map.mp hmm
      obtain ⟨e', hmem', hcid, _, _, d', hd', hlt⟩ :=
        rss_candidate_sound parsePub parseIso2 now th entries c hc
      have hee : e' = e := by
        have hinj := List.inj_on_of_nodup_map (f := fun x : FeedEntry => x.id.getD "") hndE
        exact hinj hmem' hmemE (by rw [← hcid, hcp])
      subst hee
      rw [hpe] at hd'
      obtain rfl : de = d' := by injection hd'
      omega
    · intro hgt
      exact rss_candidate_complete parsePub parseIso2 now th entries e de hmemE hpe
        (by omega)
  refine ⟨hrepo, ?_, ?_, hrss, ?_, ?_⟩
  · intro h0 hmm
    have := hrepo.mp hmm
    omega
  · intro h1
    exact hrepo.mpr (by omega)
  · intro h0 hmm
    have := hrss.mp hmm
    omega
  · intro h1
    exact hrss.mpr (by omega)

/-- C5 witness: at threshold 30 days, the concrete file added at
timestamp 0 is a candidate when `now` is exactly 31 days. -/
theorem cleanup_threshold_boundary_witness :
    "a.md" ∈ (analyze_repo_files_for_cleanup wParse (2678400 : Int) 30 wFiles).1.map
      (·.path) :=
  (cleanup_threshold_boundary wParse wParse wParse 2678400 30 wFiles "a.md"
    wFileOld "D0" 0 (by decide) (by decide) rfl (by decide) rfl [wEntryOld]
    wEntryOld 0 (by decide) (by decide) rfl).2.2.1 (by decide)

/-- C6 counterexample: a stored feed entry both of whose timestamp
fields are unparseable is not reported as a cleanup candidate by the
feed-entry analysis even at threshold 0, contradicting "treated as
immediately eligible for cleanup" for that path. -/
theorem unparseable_rss_entry_never_candidate :
    (analyze_rss_entries_for_cleanup (fun _ => none) (fun _ => none)
      1000000 0 [badEntry]).1 = [] ∧
    (analyze_rss_entries_for_cleanup (fun _ => none) (fun _ => none)
      1000000 0 [badEntry]).2 = 1 := by
  decide

/-- C6 (amended): the two analysis paths fall back differently on
unparseable timestamps.  A repository file whose (present, nonempty)
`added_date` fails to parse is reported as a cleanup candidate with
`"unknown"` age regardless of the threshold.  A feed entry whose
timestamp fields cannot be parsed is never a cleanup candidate,
whatever else the store contains: placed anywhere in the entry list, it
leaves the candidate list exactly as it would be without it, and no
produced candidate carries its (unparseable) timestamp fields. -/
theorem unparseable_timestamp_fallbacks (parseIso parsePub parseIso2 :
      String → Option Int) (now th : Int)
    (files : RepoSnapshot) (p : String) (fi : FileInfo) (s : String)
    (hmem : (p, fi) ∈ files) (hdate : fi.added_date = some s) (hne : s ≠ "")
    (hfail : parseIso s = none) (l₁ l₂ : List FeedEntry) (e : FeedEntry)
    (hfailE : parse_entry_date parsePub parseIso2 e.published
      (e.detected_date.getD "") = none) :
    ({ path := p, size := fi.size, added_date := "unknown", days_old := none } :
        RepoCleanupCandidate) ∈
      (analyze_repo_files_for_cleanup parseIso now th files).1 ∧
    (analyze_rss_entries_for_cleanup parsePub parseIso2 now th (l₁ ++ e :: l₂)).1 =
      (analyze_rss_entries_for_cleanup parsePub parseIso2 now th (l₁ ++ l₂)).1 ∧
    ∀ c ∈ (analyze_rss_entries_for_cleanup parsePub parseIso2 now th (l₁ ++ e :: l₂)).1,
      ¬(c.published = e.published ∧ c.detected_date = e.detected_date.getD "") := by
  refine ⟨repo_candidate_unknown parseIso now th files p fi s hmem hdate hne hfail,
    rss_unparseable_entry_contributes_nothing parsePub parseIso2 now th l₁ l₂ e hfailE,
    ?_⟩
  rintro c hc ⟨hpub, hdet⟩
  obtain ⟨e', _, _, hpub', hdet', d, hd, _⟩ :=
    rss_candidate_sound parsePub parseIso2 now th (l₁ ++ e :: l₂) c hc
  rw [← hpub', hpub] at hd
  rw [← hdet', hdet] at hd
  rw [hfailE] at hd
  cases hd

/-- C6 witness: in a store holding both a parseable and an unparseable
feed entry, the concrete file with unparseable `added_date` is a
repository candidate at threshold 0 while the candidate list of the feed
store is unaffected by the unparseable entry. -/
theorem unparseable_timestamp_fallbacks_witness :
    ({ path := "x.md", size := wFileBad.size, added_date := "unknown",
        days_old := none } : RepoCleanupCandidate) ∈
      (analyze_repo_files_for_cleanup (fun _ => none) 0 0 wFilesBad).1 ∧
    (analyze_rss_entries_for_cleanup wParse wParse 86400 0
        [wEntryOld, badEntry]).1 =
      (analyze_rss_entries_for_cleanup wParse wParse 86400 0 [wEntryOld]).1 :=
  ⟨(unparseable_timestamp_fallbacks (fun _ => none) (fun _ => none)
      (fun _ => none) 0 0 wFilesBad "x.md" wFileBad "garbage" (by decide) rfl
      (by decide) rfl [] [] badEntry (by decide)).1,
   (unparseable_timestamp_fallbacks wParse wParse wParse 86400 0 wFilesBad
      "x.md" wFileBad "garbage" (by decide) rfl (by decide) (by decide)
      [wEntryOld] [] badEntry (by decide)).2.1⟩

end Octoverse
